import Mathlib

namespace Protardio

/-!
Verification of the Protardio Discord verification service.

Shallow embedding of the reconciliation core of the service:
the identity resolver (`getFarcasterWallets` / `allWallets`,
src/src/neynar.ts and src/src/index.ts), the ownership aggregator
(the wallet loop of the OAuth callback, src/src/index.ts), the
trust scorer (`calculateSybilScore`, src/src/neynar.ts), the
binding registry (the FID/wallet conflict checks, role grant and
`storeVerification` upsert of src/src/index.ts and
src/src/supabase-database.ts), and the reconciliation interval
(src/src/index.ts).

External collaborators (the chain RPC, the Neynar social-graph API,
the Discord role shim, the wall clock) are modelled as explicit
oracle arguments; a fallible balance read is an `Option Nat`
(`none` = RPC failure).  The Supabase tables are modelled as Lean
lists of records; keyed `select`/`delete`/`update`/`upsert` become
`find?`/`filter`/`map`/replace-or-append on those lists.
Timestamps (`Date.now`/`toISOString`) are modelled as `Nat` values
passed in explicitly.  JavaScript `toLowerCase` is modelled as
`lowerStr` (per-character ASCII lowering, the range relevant to
hex wallet addresses).
-/

/-! ### String lowering (JS `toLowerCase`, ASCII range) -/

/-- Embedding of JavaScript `String.prototype.toLowerCase` as used on
hex wallet addresses: lower each character (ASCII `A`-`Z`). -/
def lowerStr (s : String) : String := ⟨s.data.map Char.toLower⟩

/-! ### On-chain balance lookup (src/blockchain.ts, `getProtardioBalance`) -/

/-- `getProtardioBalance` (src/blockchain.ts lines 50-64): reads
`balanceOf(wallet)` from the chain; any error is caught and reported
as balance 0.  The raw chain read is the oracle `onchain`
(`none` = RPC failure). -/
def getProtardioBalance (onchain : String → Option Nat) (wallet : String) : Nat :=
  (onchain wallet).getD 0

/-! ### The ownership-aggregator wallet loop (src/src/index.ts lines 163-173) -/

/-- The per-wallet loop of the OAuth callback:
`for (const wallet of allWallets) { const balance = ...; if (balance > 0)
{ totalBalance += balance; if (!holdingWallet) holdingWallet = wallet } }`,
with `total`/`holding` the running accumulator values. -/
def walletLoopAux (bal : String → Nat) : List String → Nat → Option String → Nat × Option String
  | [], total, holding => (total, holding)
  | w :: ws, total, holding =>
    let b := bal w
    if 0 < b then
      walletLoopAux bal ws (total + b) (if holding.isNone then some w else holding)
    else
      walletLoopAux bal ws total holding

/-- The wallet loop started with `totalBalance = 0`, `holdingWallet = null`. -/
def walletLoop (bal : String → Nat) (ws : List String) : Nat × Option String :=
  walletLoopAux bal ws 0 none

/-! ### Identity resolver (src/src/neynar.ts lines 31-79, src/src/index.ts lines 156-161) -/

/-- One step of JavaScript `Set` insertion (insertion order, first
occurrence kept). -/
def dedupStep (acc : List String) (w : String) : List String :=
  if w ∈ acc then acc else acc ++ [w]

/-- `[...new Set(l)]`: de-duplicate keeping the first occurrence of each
element, preserving order. -/
def dedupKeepFirst (l : List String) : List String :=
  l.foldl dedupStep []

/-- The Farcaster profile record returned by the Neynar API
(src/src/neynar.ts `FarcasterUser`), restricted to the fields the
reconciliation core reads.  `eth_addresses` models
`verified_addresses.eth_addresses`. -/
structure FCUser where
  username : String
  display_name : String
  pfp_url : String
  custody_address : String
  eth_addresses : List String
  follower_count : Nat
  following_count : Nat
  power_badge : Bool
deriving DecidableEq

/-- `getFarcasterWallets` (src/src/neynar.ts lines 31-79) on a
successfully fetched user: push the lowercased custody address (when
non-empty), then each lowercased verified ETH address not already
present. -/
def getFarcasterWallets (u : FCUser) : List String :=
  let wallets := if u.custody_address ≠ "" then [lowerStr u.custody_address] else []
  u.eth_addresses.foldl (fun ws a =>
    let n := lowerStr a
    if n ∈ ws then ws else ws ++ [n]) wallets

/-- `getFarcasterWallets` including the failure contract: an API error,
an empty result or a missing key yields `[]`. -/
def getFarcasterWalletsRes : Option FCUser → List String
  | none => []
  | some u => getFarcasterWallets u

/-- `allWallets` (src/src/index.ts line 160):
`[...new Set([pending.wallet.toLowerCase(), ...farcasterWallets])]`. -/
def allWallets (submitted : String) (fcs : List String) : List String :=
  dedupKeepFirst (lowerStr submitted :: fcs)

/-! ### Trust scorer (src/src/neynar.ts lines 121-165, `calculateSybilScore`) -/

/-- Substring test at the head of a character list. -/
def matchesAt : List Char → List Char → Bool
  | [], _ => true
  | _ :: _, [] => false
  | p :: ps, c :: cs => p == c && matchesAt ps cs

/-- Substring occurrence anywhere in a character list. -/
def hasSub (pat : List Char) : List Char → Bool
  | [] => matchesAt pat []
  | c :: cs => matchesAt pat (c :: cs) || hasSub pat cs

/-- JavaScript `s.includes(pat)`. -/
def hasSubstr (s pat : String) : Bool := hasSub pat.data s.data

/-- Follower-count tier (max 30 points), the first `if`/`else if` chain
of `calculateSybilScore`. -/
def followerBucket (n : Nat) : Nat :=
  if 1000 ≤ n then 30 else if 500 ≤ n then 25 else if 100 ≤ n then 20
  else if 50 ≤ n then 15 else if 10 ≤ n then 10 else if 1 ≤ n then 5 else 0

/-- Following-count tier (max 10 points). -/
def followingBucket (n : Nat) : Nat :=
  if 100 ≤ n then 10 else if 50 ≤ n then 7 else if 10 ≤ n then 5 else 0

/-- Power badge: 25 points when set. -/
def badgeBucket (b : Bool) : Nat := if b then 25 else 0

/-- Verified ETH address tier (max 20 points). -/
def verifiedBucket (n : Nat) : Nat :=
  if 3 ≤ n then 20 else if 2 ≤ n then 15 else if 1 ≤ n then 10 else 0

/-- Avatar points: `if (user.pfp_url && !user.pfp_url.includes('default'))
score += 5` — a non-empty profile-picture URL not containing the
substring `default`. -/
def avatarBucket (p : String) : Nat :=
  if p ≠ "" ∧ hasSubstr p "default" = false then 5 else 0

/-- Display-name points: non-empty and distinct from the handle. -/
def displayBucket (dn un : String) : Nat :=
  if dn ≠ "" ∧ dn ≠ un then 5 else 0

/-- Follower/following ratio bonus: evaluated only when
`following_count > 0`; 5 points when `follower/following ∈ [0.5, 10]`,
written in exact integer arithmetic (`0.5 ≤ f/g ↔ g ≤ 2f` and
`f/g ≤ 10 ↔ f ≤ 10 g` for positive `g`). -/
def ratioBucket (follower following : Nat) : Nat :=
  if 0 < following ∧ following ≤ 2 * follower ∧ follower ≤ 10 * following then 5 else 0

/-- The raw additive score of `calculateSybilScore` before the final
`Math.min(score, 100)`: the sequential `score += ...` updates of the
source, one bucket per signal, in source order. -/
def sybilRaw (u : FCUser) : Nat :=
  followerBucket u.follower_count + followingBucket u.following_count
  + badgeBucket u.power_badge + verifiedBucket u.eth_addresses.length
  + avatarBucket u.pfp_url + displayBucket u.display_name u.username
  + ratioBucket u.follower_count u.following_count

/-- `calculateSybilScore` on a successfully fetched profile:
`Math.min(score, 100)`. -/
def sybilScoreOf (u : FCUser) : Nat := min (sybilRaw u) 100

/-- `calculateSybilScore` including the lookup-failure contract:
a missing user scores 0. -/
def calculateSybilScore : Option FCUser → Nat
  | none => 0
  | some u => sybilScoreOf u

/-! ### Persistence layer (src/src/supabase-database.ts) -/

/-- A row of `discord_verifications` (the durable Binding):
src/src/supabase-database.ts `storeVerification` columns. -/
structure Verification where
  fid : Nat
  wallet : String
  discord_id : String
  discord_username : String
  nft_balance : Nat
  verified_at : Nat
  last_checked : Nat
deriving DecidableEq

/-- A row of `discord_pending_verifications` (the PendingSession). -/
structure Pending where
  session_id : String
  fid : Nat
  wallet : String
  created_at : Nat
deriving DecidableEq

/-- `getPending` (src/src/supabase-database.ts lines 29-42): select the
row keyed by session id. -/
def getPending (sid : String) (l : List Pending) : Option Pending :=
  l.find? (fun p => p.session_id == sid)

/-- `deletePending` (lines 45-58): delete the row keyed by session id. -/
def deletePending (sid : String) (l : List Pending) : List Pending :=
  l.filter (fun p => p.session_id != sid)

/-- `storeVerification` (lines 61-89): upsert keyed on `discord_id`
(`onConflict: 'discord_id'`), lowercasing the wallet and stamping
`verified_at`/`last_checked` with the current time. -/
def storeVerification (fid : Nat) (wallet discordId discordUsername : String)
    (nftBalance now : Nat) (l : List Verification) : List Verification :=
  let r : Verification :=
    ⟨fid, lowerStr wallet, discordId, discordUsername, nftBalance, now, now⟩
  if l.any (fun v => v.discord_id == discordId) then
    l.map (fun v => if v.discord_id == discordId then r else v)
  else
    l ++ [r]

/-- `updateNftBalance` (lines 92-108): update `nft_balance` and
`last_checked` of the row keyed by `discord_id`, all other columns
untouched. -/
def updateNftBalance (discordId : String) (nftBalance now : Nat)
    (l : List Verification) : List Verification :=
  l.map (fun v =>
    if v.discord_id == discordId then
      { v with nft_balance := nftBalance, last_checked := now }
    else v)

/-- `getVerificationByWallet` (lines 127-140). -/
def getVerificationByWallet (wallet : String) (l : List Verification) : Option Verification :=
  l.find? (fun v => v.wallet == lowerStr wallet)

/-- `getVerificationByFid` (lines 143-156). -/
def getVerificationByFid (fid : Nat) (l : List Verification) : Option Verification :=
  l.find? (fun v => v.fid == fid)

/-- `deleteVerification` (lines 190-203). -/
def deleteVerification (discordId : String) (l : List Verification) : List Verification :=
  l.filter (fun v => v.discord_id != discordId)

/-! ### Binding registry (src/src/index.ts lines 177-235) -/

/-- The inputs of one bind attempt: the data the callback hands to the
registry fragment, with the role-grant collaborator's answer and the
clock passed as oracle values. -/
structure BindArgs where
  fid : Nat
  holdingWallet : String
  discordId : String
  discordUsername : String
  totalBalance : Nat
  grant : Bool
  now : Nat

inductive BindResult where
  | fidConflict (username : String)
  | walletConflict (username : String)
  | grantFailed
  | bound
deriving DecidableEq

/-- The tail of the bind attempt (src/src/index.ts lines 205-231):
`assignHolderRole`, then `storeVerification` only when the grant
succeeded. -/
def tryBindStore (a : BindArgs) (db : List Verification) : List Verification × BindResult :=
  if a.grant then
    (storeVerification a.fid a.holdingWallet a.discordId a.discordUsername
      a.totalBalance a.now db, .bound)
  else
    (db, .grantFailed)

/-- The wallet-conflict check (src/src/index.ts lines 190-198): reject
when the holding wallet is already bound to a different Discord id. -/
def tryBindWalletCheck (a : BindArgs) (db : List Verification) : List Verification × BindResult :=
  match getVerificationByWallet a.holdingWallet db with
  | some ex =>
    if ex.discord_id = a.discordId then tryBindStore a db
    else (db, .walletConflict ex.discord_username)
  | none => tryBindStore a db

/-- The full bind attempt (src/src/index.ts lines 177-231): FID
conflict check (skipped for wallet-only users, `fid = 0`), wallet
conflict check, role grant, persist. -/
def tryBind (a : BindArgs) (db : List Verification) : List Verification × BindResult :=
  if 0 < a.fid then
    match getVerificationByFid a.fid db with
    | some ex =>
      if ex.discord_id = a.discordId then tryBindWalletCheck a db
      else (db, .fidConflict ex.discord_username)
    | none => tryBindWalletCheck a db
  else
    tryBindWalletCheck a db

/-- The registry invariant of the spec: no two Bindings share a Discord
id, no two share a wallet, and no two share a non-zero FID. -/
def GoodDB (db : List Verification) : Prop :=
  db.Pairwise (fun a b =>
    a.discord_id ≠ b.discord_id ∧ a.wallet ≠ b.wallet ∧ (a.fid = 0 ∨ a.fid ≠ b.fid))

/-- Post-state of a bind attempt. -/
def bindStep (db : List Verification) (a : BindArgs) : List Verification :=
  (tryBind a db).1

/-- The persisted state after a sequence of bind attempts starting from
an empty registry (failed attempts leave the state unchanged). -/
def bindSequence (reqs : List BindArgs) : List Verification :=
  reqs.foldl bindStep []

/-! ### The OAuth callback flow (src/src/index.ts lines 82-247) -/

/-- The Discord user identity obtained from the OAuth token exchange. -/
structure DUser where
  id : String
  username : String
deriving DecidableEq

/-- The two Supabase tables the callback touches. -/
structure ServerState where
  pendings : List Pending
  verifications : List Verification
deriving DecidableEq

/-- The external collaborators of one callback invocation: whether the
token exchange (and user-info fetch) succeeds and which Discord user it
yields, the social-graph wallet lookup, the raw chain reads, the
role-grant shim, and the clock. -/
structure Oracles where
  tokenOk : Bool
  user : DUser
  fcWallets : Nat → List String
  onchain : String → Option Nat
  roleGrant : String → Bool
  now : Nat

/-- The observable outcome of one callback invocation (which result
page is rendered). -/
inductive Outcome where
  | invalidSession
  | exchangeFailed
  | fidConflict (username : String)
  | walletConflict (username : String)
  | roleGrantFailed
  | success
  | notHolder
deriving DecidableEq

/-- The candidate wallet list of one callback invocation
(src/src/index.ts lines 156-160): social-graph wallets only when
`fid > 0`, the submitted wallet lowercased and first, `Set`-deduped. -/
def candidateWallets (o : Oracles) (pending : Pending) : List String :=
  dedupKeepFirst (lowerStr pending.wallet
    :: (if 0 < pending.fid then o.fcWallets pending.fid else []))

/-- The holder branch of the callback (src/src/index.ts lines 177-235):
FID/wallet conflict checks, role grant and persist via the registry;
the PendingSession is deleted on a conflict and on success, but kept
when the role grant fails. -/
def callbackHolder (o : Oracles) (sid : String) (pending : Pending) (st : ServerState)
    (total : Nat) (hw : String) : ServerState × Outcome :=
  match tryBind ⟨pending.fid, hw, o.user.id, o.user.username, total,
      o.roleGrant o.user.id, o.now⟩ st.verifications with
  | (_, .fidConflict un) =>
    ({ st with pendings := deletePending sid st.pendings }, .fidConflict un)
  | (_, .walletConflict un) =>
    ({ st with pendings := deletePending sid st.pendings }, .walletConflict un)
  | (_, .grantFailed) => (st, .roleGrantFailed)
  | (db2, .bound) => (⟨deletePending sid st.pendings, db2⟩, .success)

/-- `GET /auth/discord/callback` (src/src/index.ts lines 82-247):
look up the PendingSession by the `state` parameter; exchange the code
(failure throws, caught with no state change); resolve candidate
wallets; run the wallet loop; if `totalBalance > 0 && holdingWallet`
enter the holder branch, otherwise delete the session and report
not-a-holder. -/
def callback (o : Oracles) (sid : String) (st : ServerState) : ServerState × Outcome :=
  match getPending sid st.pendings with
  | none => (st, .invalidSession)
  | some pending =>
    if o.tokenOk then
      match walletLoop (getProtardioBalance o.onchain) (candidateWallets o pending) with
      | (total, some hw) =>
        if 0 < total then callbackHolder o sid pending st total hw
        else ({ st with pendings := deletePending sid st.pendings }, .notHolder)
      | (_, none) =>
        ({ st with pendings := deletePending sid st.pendings }, .notHolder)
    else
      (st, .exchangeFailed)

/-! ### Concrete fixtures used by witnesses and counterexamples -/

/-- A wallet-only PendingSession (`fid = 0`). -/
def samplePending : Pending := ⟨"s", 0, "0xAA", 0⟩

def sampleState : ServerState := ⟨[samplePending], []⟩

def sampleUser : DUser := ⟨"d1", "alice"⟩

/-- Token exchange succeeds, chain reports balance 1 everywhere, the
role grant fails. -/
def grantFailOracles : Oracles := ⟨true, sampleUser, fun _ => [], fun _ => some 1, fun _ => false, 0⟩

/-- Token exchange succeeds, chain reports balance 1 everywhere, the
role grant succeeds. -/
def grantOkOracles : Oracles := ⟨true, sampleUser, fun _ => [], fun _ => some 1, fun _ => true, 0⟩

/-- Token exchange succeeds but every chain read fails. -/
def failingChainOracles : Oracles := ⟨true, sampleUser, fun _ => [], fun _ => none, fun _ => true, 0⟩

/-! ### Reconciliation loop (src/src/index.ts lines 645-675) -/

/-- The re-computed aggregate balance of one stale Binding
(src/src/index.ts lines 651-659): candidate wallets from the stored
FID and primary wallet, then the sum of all balance reads (failures
read as 0). -/
def reconcileAggregate (fcW : Nat → List String) (onchain : String → Option Nat)
    (v : Verification) : Nat :=
  ((dedupKeepFirst (lowerStr v.wallet :: fcW v.fid)).map (getProtardioBalance onchain)).sum

/-- What the loop body asks of the Discord role shim. -/
inductive RoleAction where
  | noop
  | revoke (discordId : String)
deriving DecidableEq

/-- The body of the re-verification interval for one stale Binding
(src/src/index.ts lines 649-673): zero aggregate → `removeHolderRole`
and `deleteVerification`; positive aggregate → `updateNftBalance`. -/
def reconcileOne (fcW : Nat → List String) (onchain : String → Option Nat) (now : Nat)
    (v : Verification) (db : List Verification) : List Verification × RoleAction :=
  let total := reconcileAggregate fcW onchain v
  if total = 0 then
    (deleteVerification v.discord_id db, .revoke v.discord_id)
  else
    (updateNftBalance v.discord_id total now db, .noop)

/-- A Farcaster profile with a custody address and one verified
address, used by witnesses. -/
def sampleFCUser : FCUser := ⟨"u", "d", "pic", "0xCD", ["0xAB"], 1, 1, false⟩

/-!
### Theorems

All definitions above; the claims and their supporting lemmas follow.
-/

theorem toNat_toLower (c : Char) :
    c.toLower.toNat = if c.toNat ≥ 65 ∧ c.toNat ≤ 90 then c.toNat + 32 else c.toNat := by
  unfold Char.toLower
  by_cases h : c.toNat ≥ 65 ∧ c.toNat ≤ 90
  · have hv : (c.toNat + 32).isValidChar := by
      left
      have := h.2
      omega
    rw [if_pos h, if_pos h]
    simp [Char.ofNat, hv]
    rfl
  · rw [if_neg h, if_neg h]

theorem toLower_eq_self (x : Char) (h : ¬(x.toNat ≥ 65 ∧ x.toNat ≤ 90)) : x.toLower = x := by
  unfold Char.toLower
  rw [if_neg h]

theorem lowerCharIdem (c : Char) : c.toLower.toLower = c.toLower := by
  apply toLower_eq_self
  rw [toNat_toLower]
  by_cases h : c.toNat ≥ 65 ∧ c.toNat ≤ 90
  · rw [if_pos h]; omega
  · rw [if_neg h]; omega

theorem lowerStrIdem (s : String) : lowerStr (lowerStr s) = lowerStr s := by
  unfold lowerStr
  congr 1
  rw [List.map_map]
  exact List.map_congr_left (fun c _ => lowerCharIdem c)

theorem walletLoopAux_fst (bal : String → Nat) (ws : List String) :
    ∀ (t : Nat) (h : Option String),
      (walletLoopAux bal ws t h).1 = t + (ws.map bal).sum := by
  induction ws with
  | nil => intro t h; simp [walletLoopAux]
  | cons w ws ih =>
    intro t h
    by_cases hb : 0 < bal w
    · rw [walletLoopAux, if_pos hb, ih]
      simp
      omega
    · rw [walletLoopAux, if_neg hb, ih]
      have : bal w = 0 := by omega
      simp [this]

theorem walletLoopAux_snd_some (bal : String → Nat) (ws : List String) :
    ∀ (t : Nat) (x : String),
      (walletLoopAux bal ws t (some x)).2 = some x := by
  induction ws with
  | nil => intro t x; simp [walletLoopAux]
  | cons w ws ih =>
    intro t x
    by_cases hb : 0 < bal w
    · rw [walletLoopAux, if_pos hb]
      simp [Option.isNone]
      exact ih _ _
    · rw [walletLoopAux, if_neg hb]
      exact ih _ _

theorem walletLoopAux_snd_none (bal : String → Nat) (ws : List String) :
    ∀ (t : Nat),
      (walletLoopAux bal ws t none).2 = ws.find? (fun w => decide (0 < bal w)) := by
  induction ws with
  | nil => intro t; simp [walletLoopAux]
  | cons w ws ih =>
    intro t
    by_cases hb : 0 < bal w
    · rw [walletLoopAux, if_pos hb]
      simp only [Option.isNone, if_pos rfl]
      rw [List.find?_cons_of_pos _ (by simpa using hb)]
      exact walletLoopAux_snd_some bal ws _ _
    · rw [walletLoopAux, if_neg hb]
      rw [List.find?_cons_of_neg _ (by simpa using hb)]
      exact ih _

/-- C1: the aggregate balance computed by the loop is the sum of the
per-wallet lookups, regardless of accumulator shape. -/
theorem walletLoop_fst (bal : String → Nat) (ws : List String) :
    (walletLoop bal ws).1 = (ws.map bal).sum := by
  unfold walletLoop
  rw [walletLoopAux_fst]
  omega

theorem walletLoop_snd (bal : String → Nat) (ws : List String) :
    (walletLoop bal ws).2 = ws.find? (fun w => decide (0 < bal w)) :=
  walletLoopAux_snd_none bal ws 0

/-- C1: For every candidate wallet list, the aggregate balance computed
by the verification-flow wallet loop equals the sum of the per-wallet
balance lookups over the whole list; a lookup that fails for one wallet
(`onchain w = none`) contributes `getProtardioBalance onchain w = 0` for
that wallet, and the loop still visits every remaining wallet (the sum
ranges over the whole list). -/
theorem c1_aggregate_balance_is_sum (onchain : String → Option Nat) (ws : List String) :
    (walletLoop (getProtardioBalance onchain) ws).1
      = (ws.map (getProtardioBalance onchain)).sum :=
  walletLoop_fst (getProtardioBalance onchain) ws

theorem foldl_dedupStep_prefix (l : List String) :
    ∀ acc : List String, acc <+: l.foldl dedupStep acc := by
  induction l with
  | nil => intro acc; exact ⟨[], by simp⟩
  | cons a l ih =>
    intro acc
    rw [List.foldl_cons]
    by_cases h : a ∈ acc
    · rw [show dedupStep acc a = acc from if_pos h]
      exact ih acc
    · rw [show dedupStep acc a = acc ++ [a] from if_neg h]
      exact List.IsPrefix.trans ⟨[a], rfl⟩ (ih (acc ++ [a]))

theorem foldl_dedupStep_mem (l : List String) :
    ∀ (acc : List String) (x : String),
      x ∈ l.foldl dedupStep acc ↔ x ∈ acc ∨ x ∈ l := by
  induction l with
  | nil => intro acc x; simp
  | cons a l ih =>
    intro acc x
    rw [List.foldl_cons]
    by_cases h : a ∈ acc
    · rw [show dedupStep acc a = acc from if_pos h, ih]
      constructor
      · rintro (hx | hx)
        · exact Or.inl hx
        · exact Or.inr (List.mem_cons_of_mem a hx)
      · rintro (hx | hx)
        · exact Or.inl hx
        · rcases List.mem_cons.mp hx with rfl | hx
          · exact Or.inl h
          · exact Or.inr hx
    · rw [show dedupStep acc a = acc ++ [a] from if_neg h, ih]
      simp only [List.mem_append, List.mem_singleton, List.mem_cons]
      tauto

theorem foldl_dedupStep_nodup (l : List String) :
    ∀ acc : List String, acc.Nodup → (l.foldl dedupStep acc).Nodup := by
  induction l with
  | nil => intro acc h; simpa
  | cons a l ih =>
    intro acc h
    rw [List.foldl_cons]
    by_cases hm : a ∈ acc
    · rw [show dedupStep acc a = acc from if_pos hm]
      exact ih acc h
    · rw [show dedupStep acc a = acc ++ [a] from if_neg hm]
      refine ih _ ?_
      simp [List.nodup_append, h, hm]

theorem foldl_dedupStep_sublist (l : List String) :
    ∀ acc : List String, ((l.foldl dedupStep acc).drop acc.length).Sublist l := by
  induction l with
  | nil => intro acc; simp
  | cons a l ih =>
    intro acc
    rw [List.foldl_cons]
    by_cases h : a ∈ acc
    · rw [show dedupStep acc a = acc from if_pos h]
      exact (ih acc).trans (List.sublist_cons_self a l)
    · rw [show dedupStep acc a = acc ++ [a] from if_neg h]
      obtain ⟨t, ht⟩ := foldl_dedupStep_prefix l (acc ++ [a])
      have hdrop1 : (l.foldl dedupStep (acc ++ [a])).drop acc.length = a :: t := by
        rw [← ht]
        rw [List.append_assoc, List.drop_append_of_le_length (by simp)]
        simp
      have hdrop2 : (l.foldl dedupStep (acc ++ [a])).drop (acc ++ [a]).length = t := by
        rw [← ht, List.drop_append_of_le_length (by simp)]
        simp
      have h2 := ih (acc ++ [a])
      rw [hdrop2] at h2
      rw [hdrop1]
      exact List.cons_sublist_cons.mpr h2

theorem dedupKeepFirst_cons_head (w : String) (l : List String) :
    ∃ t, dedupKeepFirst (w :: l) = w :: t := by
  unfold dedupKeepFirst
  rw [List.foldl_cons]
  have hstep : dedupStep [] w = [w] := by simp [dedupStep]
  rw [hstep]
  obtain ⟨t, ht⟩ := foldl_dedupStep_prefix l [w]
  exact ⟨t, by rw [← ht]; simp⟩

theorem dedupKeepFirst_sublist (l : List String) : (dedupKeepFirst l).Sublist l := by
  have h := foldl_dedupStep_sublist l []
  simpa [dedupKeepFirst] using h

theorem dedupKeepFirst_mem (l : List String) (x : String) :
    x ∈ dedupKeepFirst l ↔ x ∈ l := by
  unfold dedupKeepFirst
  rw [foldl_dedupStep_mem]
  simp

theorem dedupKeepFirst_nodup (l : List String) : (dedupKeepFirst l).Nodup :=
  foldl_dedupStep_nodup l [] List.nodup_nil

/-- Every wallet `getFarcasterWallets` returns is already in canonical
lowercase form. -/
theorem getFarcasterWallets_lower (u : FCUser) :
    ∀ w ∈ getFarcasterWallets u, lowerStr w = w := by
  unfold getFarcasterWallets
  have base : ∀ w ∈ (if u.custody_address ≠ "" then [lowerStr u.custody_address] else []),
      lowerStr w = w := by
    intro w hw
    by_cases hc : u.custody_address ≠ ""
    · rw [if_pos hc] at hw
      rcases List.mem_singleton.mp hw with rfl
      exact lowerStrIdem _
    · rw [if_neg hc] at hw
      exact absurd hw (List.not_mem_nil w)
  generalize (if u.custody_address ≠ "" then [lowerStr u.custody_address] else []) = ws0 at base ⊢
  induction u.eth_addresses generalizing ws0 with
  | nil => simpa using base
  | cons a rest ih =>
    rw [List.foldl_cons]
    apply ih
    intro w hw
    by_cases hm : lowerStr a ∈ ws0
    · rw [if_pos hm] at hw
      exact base w hw
    · rw [if_neg hm] at hw
      rcases List.mem_append.mp hw with hw | hw
      · exact base w hw
      · rcases List.mem_singleton.mp hw with rfl
        exact lowerStrIdem a

/-- C7: the identity resolver's candidate list is never empty, starts
with the lowercased submitted wallet, contains it, is duplicate-free,
preserves the order `submitted` then discovered wallets as returned by
the social-graph lookup (it is a sublist of that concatenation and
exhausts its members), and — when the discovered wallets come from
`getFarcasterWallets` — every element is lowercase-normalized. -/
theorem c7_resolver_output (submitted : String) (fcs : List String) (r : Option FCUser) :
    allWallets submitted fcs ≠ []
    ∧ (allWallets submitted fcs).head? = some (lowerStr submitted)
    ∧ lowerStr submitted ∈ allWallets submitted fcs
    ∧ (allWallets submitted fcs).Nodup
    ∧ (allWallets submitted fcs).Sublist (lowerStr submitted :: fcs)
    ∧ (∀ w, w ∈ allWallets submitted fcs ↔ w ∈ lowerStr submitted :: fcs)
    ∧ (∀ w ∈ allWallets submitted (getFarcasterWalletsRes r), lowerStr w = w) := by
  obtain ⟨t, ht⟩ := dedupKeepFirst_cons_head (lowerStr submitted) fcs
  refine ⟨?_, ?_, ?_, dedupKeepFirst_nodup _, dedupKeepFirst_sublist _, ?_, ?_⟩
  · unfold allWallets
    rw [ht]
    exact List.cons_ne_nil _ _
  · unfold allWallets
    rw [ht]
    rfl
  · exact (dedupKeepFirst_mem _ _).mpr (List.mem_cons_self _ _)
  · intro w
    exact dedupKeepFirst_mem _ w
  · intro w hw
    rcases (dedupKeepFirst_mem _ w).mp hw with hw'
    rcases List.mem_cons.mp hw' with rfl | hw'
    · exact lowerStrIdem submitted
    · cases r with
      | none => exact absurd hw' (List.not_mem_nil w)
      | some u => exact getFarcasterWallets_lower u w hw'

theorem followerBucket_mono {a b : Nat} (h : a ≤ b) : followerBucket a ≤ followerBucket b := by
  unfold followerBucket
  split_ifs <;> omega

theorem followingBucket_mono {a b : Nat} (h : a ≤ b) : followingBucket a ≤ followingBucket b := by
  unfold followingBucket
  split_ifs <;> omega

theorem verifiedBucket_mono {a b : Nat} (h : a ≤ b) : verifiedBucket a ≤ verifiedBucket b := by
  unfold verifiedBucket
  split_ifs <;> omega

theorem ratioBucket_le_five (a b : Nat) : ratioBucket a b ≤ 5 := by
  unfold ratioBucket
  split_ifs <;> omega

/-- C6 counterexample: the trust score is NOT monotonically
non-decreasing in the follower count.  With following count 10 and all
other signals neutral, a profile with 100 followers scores 30 (tier 20,
following 5, ratio 5) while the same profile with 101 followers scores
only 25: the extra follower pushes the follower/following ratio above
10 and forfeits the 5-point ratio bonus.  The two profiles differ only
in `follower_count`, which increases. -/
theorem c6_counterexample :
    (FCUser.mk "u" "u" "" "" [] 100 10 false).follower_count
      < (FCUser.mk "u" "u" "" "" [] 101 10 false).follower_count
    ∧ sybilScoreOf (FCUser.mk "u" "u" "" "" [] 101 10 false)
      < sybilScoreOf (FCUser.mk "u" "u" "" "" [] 100 10 false) := by
  constructor
  · decide
  · decide

/-- C6 (amended): the trust score is monotonically non-decreasing in
the verified-address count, the badge flag, the avatar flag and the
display-name flag, each holding the other signals fixed; in the
follower count and the following count the tier buckets are monotone
but the total score may decrease, by at most the 5 points of the
follower/following-ratio bucket. -/
theorem c6_amended_monotonicity (u : FCUser) :
    (∀ l1 l2 : List String, l1.length ≤ l2.length →
        sybilScoreOf { u with eth_addresses := l1 }
          ≤ sybilScoreOf { u with eth_addresses := l2 })
    ∧ sybilScoreOf { u with power_badge := false } ≤ sybilScoreOf { u with power_badge := true }
    ∧ sybilScoreOf { u with pfp_url := "" } ≤ sybilScoreOf u
    ∧ sybilScoreOf { u with display_name := "" } ≤ sybilScoreOf u
    ∧ (∀ n1 n2 : Nat, n1 ≤ n2 →
        sybilScoreOf { u with follower_count := n1 }
          ≤ sybilScoreOf { u with follower_count := n2 } + 5)
    ∧ (∀ n1 n2 : Nat, n1 ≤ n2 →
        sybilScoreOf { u with following_count := n1 }
          ≤ sybilScoreOf { u with following_count := n2 } + 5) := by
  refine ⟨?_, ?_, ?_, ?_, ?_, ?_⟩
  · intro l1 l2 hl
    unfold sybilScoreOf sybilRaw
    have := verifiedBucket_mono hl
    simp only
    omega
  · unfold sybilScoreOf sybilRaw badgeBucket
    simp
  · unfold sybilScoreOf sybilRaw
    have h0 : avatarBucket "" = 0 := by decide
    have h5 : avatarBucket u.pfp_url ≤ 5 := by
      unfold avatarBucket
      split_ifs <;> omega
    simp only
    omega
  · unfold sybilScoreOf sybilRaw
    have h0 : displayBucket "" u.username = 0 := by
      unfold displayBucket
      simp
    have h5 : displayBucket u.display_name u.username ≤ 5 := by
      unfold displayBucket
      split_ifs <;> omega
    simp only
    omega
  · intro n1 n2 hn
    unfold sybilScoreOf sybilRaw
    have hm := followerBucket_mono hn
    have hr1 := ratioBucket_le_five n1 u.following_count
    have hr2 := ratioBucket_le_five n2 u.following_count
    simp only
    omega
  · intro n1 n2 hn
    unfold sybilScoreOf sybilRaw
    have hm := followingBucket_mono hn
    have hr1 := ratioBucket_le_five u.follower_count n1
    have hr2 := ratioBucket_le_five u.follower_count n2
    simp only
    omega

/-- C6 witness: the amended monotonicity applied at a concrete profile. -/
theorem c6_amended_witness :
    ([] : List String).length ≤ ["0xa"].length
    ∧ sybilScoreOf (FCUser.mk "u" "d" "pic" "" [] 7 0 true)
      ≤ sybilScoreOf (FCUser.mk "u" "d" "pic" "" ["0xa"] 7 0 true) :=
  ⟨by decide,
    (c6_amended_monotonicity (FCUser.mk "u" "d" "pic" "" [] 7 0 true)).1 [] ["0xa"] (by decide)⟩

/-- C10: the 5 avatar points are awarded exactly when the profile
picture URL is non-empty and does not contain the substring `default`.
A profile whose avatar URL contains `default` scores identically to the
same profile with no avatar URL at all; a profile with a non-empty,
non-`default` URL scores exactly 5 raw points more. -/
theorem c10_avatar_default (u : FCUser) :
    (hasSubstr u.pfp_url "default" = true →
      sybilScoreOf u = sybilScoreOf { u with pfp_url := "" })
    ∧ (u.pfp_url ≠ "" → hasSubstr u.pfp_url "default" = false →
      sybilRaw u = sybilRaw { u with pfp_url := "" } + 5) := by
  have h0 : avatarBucket "" = 0 := by decide
  constructor
  · intro hd
    unfold sybilScoreOf sybilRaw
    have ha : avatarBucket u.pfp_url = 0 := by
      unfold avatarBucket
      rw [if_neg]
      rintro ⟨-, hfalse⟩
      rw [hd] at hfalse
      exact Bool.noConfusion hfalse
    simp only
    omega
  · intro hne hnd
    unfold sybilRaw
    have ha : avatarBucket u.pfp_url = 5 := by
      unfold avatarBucket
      rw [if_pos ⟨hne, hnd⟩]
    simp only
    omega

/-- C10 witness: a profile whose avatar URL is `default.png` takes no
avatar points — it scores the same as with an empty avatar URL. -/
theorem c10_witness :
    hasSubstr "default.png" "default" = true
    ∧ sybilScoreOf (FCUser.mk "u" "d" "default.png" "" [] 3 0 false)
      = sybilScoreOf (FCUser.mk "u" "d" "" "" [] 3 0 false) :=
  ⟨by decide, (c10_avatar_default (FCUser.mk "u" "d" "default.png" "" [] 3 0 false)).1 (by decide)⟩

theorem goodDB_symm :
    Symmetric (fun a b : Verification =>
      a.discord_id ≠ b.discord_id ∧ a.wallet ≠ b.wallet ∧ (a.fid = 0 ∨ a.fid ≠ b.fid)) := by
  rintro a b ⟨h1, h2, h3⟩
  refine ⟨Ne.symm h1, Ne.symm h2, ?_⟩
  by_cases hb : b.fid = 0
  · exact Or.inl hb
  · rcases h3 with h3 | h3
    · exact Or.inr (fun he => hb (he ▸ h3))
    · exact Or.inr (Ne.symm h3)

theorem goodDB_forall {db : List Verification} (h : GoodDB db) :
    ∀ v ∈ db, ∀ w ∈ db, v ≠ w →
      v.discord_id ≠ w.discord_id ∧ v.wallet ≠ w.wallet ∧ (v.fid = 0 ∨ v.fid ≠ w.fid) := by
  intro v hv w hw hne
  exact List.Pairwise.forall goodDB_symm h hv hw hne

theorem wallet_check_none {db : List Verification} {w : String}
    (h : getVerificationByWallet w db = none) :
    ∀ v ∈ db, v.wallet ≠ lowerStr w := by
  intro v hv
  have := List.find?_eq_none.mp h v hv
  simpa using this

theorem wallet_check_same {db : List Verification} {w dId : String} {ex : Verification}
    (hg : GoodDB db) (h : getVerificationByWallet w db = some ex)
    (hid : ex.discord_id = dId) :
    ∀ v ∈ db, v.discord_id ≠ dId → v.wallet ≠ lowerStr w := by
  intro v hv hvid
  have hmem : ex ∈ db := List.mem_of_find?_eq_some h
  have hexw : ex.wallet = lowerStr w := by
    have := List.find?_some h
    simpa using this
  have hne : v ≠ ex := fun he => hvid (by rw [he, hid])
  have := (goodDB_forall hg v hv ex hmem hne).2.1
  rw [hexw] at this
  exact this

theorem fid_check_none {db : List Verification} {f : Nat}
    (h : getVerificationByFid f db = none) :
    ∀ v ∈ db, v.fid ≠ f := by
  intro v hv
  have := List.find?_eq_none.mp h v hv
  simpa using this

theorem fid_check_same {db : List Verification} {f : Nat} {dId : String} {ex : Verification}
    (hg : GoodDB db) (hf : f ≠ 0) (h : getVerificationByFid f db = some ex)
    (hid : ex.discord_id = dId) :
    ∀ v ∈ db, v.discord_id ≠ dId → v.fid ≠ f := by
  intro v hv hvid hvf
  have hmem : ex ∈ db := List.mem_of_find?_eq_some h
  have hexf : ex.fid = f := by
    have := List.find?_some h
    simpa using this
  have hne : v ≠ ex := fun he => hvid (by rw [he, hid])
  rcases (goodDB_forall hg v hv ex hmem hne).2.2 with h0 | hne'
  · exact hf (by rw [← hvf, h0])
  · exact hne' (by rw [hvf, hexf])

/-- `storeVerification` preserves the registry invariant provided the
conflict checks guaranteed that no OTHER Binding holds the new wallet
or the new (non-zero) FID. -/
theorem storeVerification_preserves {db : List Verification} (a : BindArgs)
    (hg : GoodDB db)
    (hw : ∀ v ∈ db, v.discord_id ≠ a.discordId → v.wallet ≠ lowerStr a.holdingWallet)
    (hf : a.fid ≠ 0 → ∀ v ∈ db, v.discord_id ≠ a.discordId → v.fid ≠ a.fid) :
    GoodDB (storeVerification a.fid a.holdingWallet a.discordId a.discordUsername
      a.totalBalance a.now db) := by
  unfold storeVerification GoodDB
  simp only
  set r : Verification :=
    ⟨a.fid, lowerStr a.holdingWallet, a.discordId, a.discordUsername,
      a.totalBalance, a.now, a.now⟩ with hr
  by_cases hany : db.any (fun v => v.discord_id == a.discordId)
  · rw [if_pos hany]
    rw [List.pairwise_map]
    refine List.Pairwise.imp_of_mem ?_ hg
    intro v w hv hw2 hvw
    by_cases hkv : v.discord_id = a.discordId <;> by_cases hkw : w.discord_id = a.discordId
    · exact absurd (hkv.trans hkw.symm) hvw.1
    · have hrepv : (if (v.discord_id == a.discordId) = true then r else v) = r := by
        simp [hkv]
      have hrepw : (if (w.discord_id == a.discordId) = true then r else w) = w := by
        simp [hkw]
      rw [hrepv, hrepw]
      refine ⟨?_, ?_, ?_⟩
      · show a.discordId ≠ w.discord_id
        exact fun he => hkw he.symm
      · show lowerStr a.holdingWallet ≠ w.wallet
        exact fun he => hw w hw2 hkw he.symm
      · show a.fid = 0 ∨ a.fid ≠ w.fid
        by_cases h0 : a.fid = 0
        · exact Or.inl h0
        · exact Or.inr (fun he => hf h0 w hw2 hkw he.symm)
    · have hrepv : (if (v.discord_id == a.discordId) = true then r else v) = v := by
        simp [hkv]
      have hrepw : (if (w.discord_id == a.discordId) = true then r else w) = r := by
        simp [hkw]
      rw [hrepv, hrepw]
      refine ⟨hkv, hw v hv hkv, ?_⟩
      by_cases h0 : v.fid = 0
      · exact Or.inl h0
      · refine Or.inr (fun he => ?_)
        by_cases ha0 : a.fid = 0
        · exact h0 (he.trans ha0)
        · exact hf ha0 v hv hkv he
    · have hrepv : (if (v.discord_id == a.discordId) = true then r else v) = v := by
        simp [hkv]
      have hrepw : (if (w.discord_id == a.discordId) = true then r else w) = w := by
        simp [hkw]
      rw [hrepv, hrepw]
      exact hvw
  · rw [if_neg hany]
    rw [List.pairwise_append]
    refine ⟨hg, List.pairwise_singleton _ _, ?_⟩
    intro v hv b hb
    rcases List.mem_singleton.mp hb with rfl
    have hkv : v.discord_id ≠ a.discordId := by
      have hall : ∀ x ∈ db, ¬x.discord_id = a.discordId := by simpa using hany
      exact hall v hv
    refine ⟨hkv, hw v hv hkv, ?_⟩
    by_cases h0 : v.fid = 0
    · exact Or.inl h0
    · refine Or.inr (fun he => ?_)
      by_cases ha0 : a.fid = 0
      · exact h0 (he.trans ha0)
      · exact hf ha0 v hv hkv he

/-- `tryBindStore` preserves the invariant under the same guarantees. -/
theorem tryBindStore_preserves {db : List Verification} (a : BindArgs)
    (hg : GoodDB db)
    (hw : ∀ v ∈ db, v.discord_id ≠ a.discordId → v.wallet ≠ lowerStr a.holdingWallet)
    (hf : a.fid ≠ 0 → ∀ v ∈ db, v.discord_id ≠ a.discordId → v.fid ≠ a.fid) :
    GoodDB (tryBindStore a db).1 := by
  unfold tryBindStore
  by_cases hgr : a.grant
  · rw [if_pos hgr]
    exact storeVerification_preserves a hg hw hf
  · rw [if_neg hgr]
    exact hg

/-- `tryBindWalletCheck` preserves the invariant once the FID check has
passed. -/
theorem tryBindWalletCheck_preserves {db : List Verification} (a : BindArgs)
    (hg : GoodDB db)
    (hf : a.fid ≠ 0 → ∀ v ∈ db, v.discord_id ≠ a.discordId → v.fid ≠ a.fid) :
    GoodDB (tryBindWalletCheck a db).1 := by
  unfold tryBindWalletCheck
  cases hwc : getVerificationByWallet a.holdingWallet db with
  | none =>
    exact tryBindStore_preserves a hg (fun v hv _ => wallet_check_none hwc v hv) hf
  | some ex =>
    dsimp only
    by_cases hid : ex.discord_id = a.discordId
    · rw [if_pos hid]
      exact tryBindStore_preserves a hg (wallet_check_same hg hwc hid) hf
    · rw [if_neg hid]
      exact hg

/-- C3 invariant preservation: every bind attempt — successful or
rejected — preserves the registry invariant. -/
theorem tryBind_preserves {db : List Verification} (a : BindArgs) (hg : GoodDB db) :
    GoodDB (tryBind a db).1 := by
  unfold tryBind
  by_cases h0 : 0 < a.fid
  · rw [if_pos h0]
    cases hfc : getVerificationByFid a.fid db with
    | none =>
      exact tryBindWalletCheck_preserves a hg
        (fun _ v hv _ => fid_check_none hfc v hv)
    | some ex =>
      dsimp only
      by_cases hid : ex.discord_id = a.discordId
      · rw [if_pos hid]
        exact tryBindWalletCheck_preserves a hg
          (fun hnz => fid_check_same hg hnz hfc hid)
      · rw [if_neg hid]
        exact hg
  · rw [if_neg h0]
    have ha0 : a.fid = 0 := by omega
    exact tryBindWalletCheck_preserves a hg (fun hnz => absurd ha0 hnz)

/-- C3: After any sequence of bind attempts starting from an empty
registry (each attempt either succeeding and upserting, or being
rejected and leaving the state unchanged), the persisted Bindings
contain no two records with the same Discord id (the external-account
key), no two records with the same wallet address, and no two records
with the same non-zero FID (the social identifier). -/
theorem c3_uniqueness_invariant (reqs : List BindArgs) : GoodDB (bindSequence reqs) := by
  unfold bindSequence
  have main : ∀ (rs : List BindArgs) (db : List Verification),
      GoodDB db → GoodDB (rs.foldl bindStep db) := by
    intro rs
    induction rs with
    | nil => intro db h; simpa using h
    | cons a rs ih =>
      intro db h
      rw [List.foldl_cons]
      exact ih _ (tryBind_preserves a h)
  exact main reqs [] List.Pairwise.nil

theorem tryBindStore_dichotomy (a : BindArgs) (db : List Verification) :
    (tryBindStore a db).1 = db
    ∨ (tryBindStore a db).1 = storeVerification a.fid a.holdingWallet a.discordId
        a.discordUsername a.totalBalance a.now db := by
  unfold tryBindStore
  by_cases h : a.grant
  · rw [if_pos h]
    exact Or.inr rfl
  · rw [if_neg h]
    exact Or.inl rfl

theorem tryBindWalletCheck_dichotomy (a : BindArgs) (db : List Verification) :
    (tryBindWalletCheck a db).1 = db
    ∨ (tryBindWalletCheck a db).1 = storeVerification a.fid a.holdingWallet a.discordId
        a.discordUsername a.totalBalance a.now db := by
  unfold tryBindWalletCheck
  cases hwc : getVerificationByWallet a.holdingWallet db with
  | none => exact tryBindStore_dichotomy a db
  | some ex =>
    dsimp only
    by_cases hid : ex.discord_id = a.discordId
    · rw [if_pos hid]
      exact tryBindStore_dichotomy a db
    · rw [if_neg hid]
      exact Or.inl rfl

theorem tryBind_dichotomy (a : BindArgs) (db : List Verification) :
    (tryBind a db).1 = db
    ∨ (tryBind a db).1 = storeVerification a.fid a.holdingWallet a.discordId
        a.discordUsername a.totalBalance a.now db := by
  unfold tryBind
  by_cases h0 : 0 < a.fid
  · rw [if_pos h0]
    cases hfc : getVerificationByFid a.fid db with
    | none => exact tryBindWalletCheck_dichotomy a db
    | some ex =>
      dsimp only
      by_cases hid : ex.discord_id = a.discordId
      · rw [if_pos hid]
        exact tryBindWalletCheck_dichotomy a db
      · rw [if_neg hid]
        exact Or.inl rfl
  · rw [if_neg h0]
    exact tryBindWalletCheck_dichotomy a db

/-- The `discord_id`-keyed upsert of `storeVerification` is idempotent:
re-upserting the very same record replaces the existing one in place
and never appends a second row. -/
theorem storeVerification_idem (fid : Nat) (w dId dU : String) (bal now : Nat)
    (db : List Verification) :
    storeVerification fid w dId dU bal now (storeVerification fid w dId dU bal now db)
      = storeVerification fid w dId dU bal now db := by
  unfold storeVerification
  simp only
  set r : Verification := ⟨fid, lowerStr w, dId, dU, bal, now, now⟩ with hr
  have hkr : (r.discord_id == dId) = true := by simp [hr]
  by_cases h : (db.any (fun v => v.discord_id == dId)) = true
  · rw [if_pos h]
    have hany2 : ((db.map (fun v => if (v.discord_id == dId) = true then r else v)).any
        (fun v => v.discord_id == dId)) = true := by
      rcases List.any_eq_true.mp h with ⟨v, hv, hkv⟩
      apply List.any_eq_true.mpr
      refine ⟨if (v.discord_id == dId) = true then r else v, List.mem_map_of_mem _ hv, ?_⟩
      rw [if_pos hkv]
      exact hkr
    rw [if_pos hany2, List.map_map]
    apply List.map_congr_left
    intro v _
    simp only [Function.comp]
    by_cases hk : (v.discord_id == dId) = true
    · rw [if_pos hk, if_pos hkr]
    · rw [if_neg hk, if_neg hk]
  · rw [if_neg h]
    have hany2 : ((db ++ [r]).any (fun v => v.discord_id == dId)) = true := by
      apply List.any_eq_true.mpr
      exact ⟨r, List.mem_append_right _ (List.mem_singleton.mpr rfl), hkr⟩
    rw [if_pos hany2, List.map_append]
    have hall : ∀ v ∈ db, ¬(v.discord_id == dId) = true := by
      simpa using h
    have h1 : db.map (fun v => if (v.discord_id == dId) = true then r else v) = db := by
      conv_rhs => rw [← List.map_id db]
      apply List.map_congr_left
      intro v hv
      rw [if_neg (hall v hv)]
      rfl
    have h2 : [r].map (fun v => if (v.discord_id == dId) = true then r else v) = [r] := by
      simp [hkr]
    rw [h1, h2]

/-- C9: binding twice with identical arguments yields the same
persisted registry state after the second call as after the first —
the second call overwrites the single record it created (or changes
nothing, exactly as the first call did) and never creates an
additional record. -/
theorem c9_bind_idempotent (a : BindArgs) (db : List Verification) :
    (tryBind a (tryBind a db).1).1 = (tryBind a db).1 := by
  rcases tryBind_dichotomy a db with h | h
  · rw [h]
    exact h
  · rw [h]
    rcases tryBind_dichotomy a (storeVerification a.fid a.holdingWallet a.discordId
        a.discordUsername a.totalBalance a.now db) with h2 | h2
    · exact h2
    · rw [h2]
      exact storeVerification_idem _ _ _ _ _ _ db

theorem tryBindStore_grant_false (a : BindArgs) (db : List Verification)
    (h : a.grant = false) : tryBindStore a db = (db, .grantFailed) := by
  unfold tryBindStore
  rw [if_neg (by simp [h])]

theorem tryBindWalletCheck_grant_false (a : BindArgs) (db : List Verification)
    (h : a.grant = false) :
    (tryBindWalletCheck a db).1 = db ∧ (tryBindWalletCheck a db).2 ≠ .bound := by
  unfold tryBindWalletCheck
  cases hwc : getVerificationByWallet a.holdingWallet db with
  | none =>
    rw [tryBindStore_grant_false a db h]
    exact ⟨rfl, by simp⟩
  | some ex =>
    dsimp only
    by_cases hid : ex.discord_id = a.discordId
    · rw [if_pos hid, tryBindStore_grant_false a db h]
      exact ⟨rfl, by simp⟩
    · rw [if_neg hid]
      exact ⟨rfl, by simp⟩

theorem tryBind_grant_false (a : BindArgs) (db : List Verification)
    (h : a.grant = false) :
    (tryBind a db).1 = db ∧ (tryBind a db).2 ≠ .bound := by
  unfold tryBind
  by_cases h0 : 0 < a.fid
  · rw [if_pos h0]
    cases hfc : getVerificationByFid a.fid db with
    | none => exact tryBindWalletCheck_grant_false a db h
    | some ex =>
      dsimp only
      by_cases hid : ex.discord_id = a.discordId
      · rw [if_pos hid]
        exact tryBindWalletCheck_grant_false a db h
      · rw [if_neg hid]
        exact ⟨rfl, by simp⟩
  · rw [if_neg h0]
    exact tryBindWalletCheck_grant_false a db h

theorem callbackHolder_grant_false (o : Oracles) (sid : String) (pending : Pending)
    (st : ServerState) (total : Nat) (hw : String)
    (h : o.roleGrant o.user.id = false) :
    (callbackHolder o sid pending st total hw).1.verifications = st.verifications
    ∧ (callbackHolder o sid pending st total hw).2 ≠ .success := by
  unfold callbackHolder
  rcases htb : tryBind ⟨pending.fid, hw, o.user.id, o.user.username, total,
      o.roleGrant o.user.id, o.now⟩ st.verifications with ⟨db2, r⟩
  have hnb : r ≠ .bound := by
    have := (tryBind_grant_false ⟨pending.fid, hw, o.user.id, o.user.username, total,
      o.roleGrant o.user.id, o.now⟩ st.verifications h).2
    rw [htb] at this
    exact this
  cases r with
  | fidConflict un => exact ⟨rfl, by simp⟩
  | walletConflict un => exact ⟨rfl, by simp⟩
  | grantFailed => exact ⟨rfl, by simp⟩
  | bound => exact absurd rfl hnb

theorem callbackHolder_grantFailed (o : Oracles) (sid : String) (pending : Pending)
    (st : ServerState) (total : Nat) (hw : String) :
    (callbackHolder o sid pending st total hw).2 = .roleGrantFailed →
    (callbackHolder o sid pending st total hw).1 = st := by
  unfold callbackHolder
  rcases htb : tryBind ⟨pending.fid, hw, o.user.id, o.user.username, total,
      o.roleGrant o.user.id, o.now⟩ st.verifications with ⟨db2, r⟩
  cases r with
  | fidConflict un => intro hcontra; exact absurd hcontra (by simp)
  | walletConflict un => intro hcontra; exact absurd hcontra (by simp)
  | grantFailed => intro _; rfl
  | bound => intro hcontra; exact absurd hcontra (by simp)

/-- C4: the Binding is persisted only if the role grant succeeds.  When
the role-grant collaborator reports failure, nothing is written to the
verifications table and the outcome is never the success page; in
particular when the callback ends in the role-grant-failure outcome the
whole persistent state — PendingSessions included — is exactly the
pre-call state, and the failure is what is reported to the caller. -/
theorem c4_grant_is_precondition (o : Oracles) (sid : String) (st : ServerState) :
    (o.roleGrant o.user.id = false →
      (callback o sid st).1.verifications = st.verifications
      ∧ (callback o sid st).2 ≠ .success)
    ∧ ((callback o sid st).2 = .roleGrantFailed → (callback o sid st).1 = st) := by
  unfold callback
  cases hp : getPending sid st.pendings with
  | none => exact ⟨fun _ => ⟨rfl, by simp⟩, fun _ => rfl⟩
  | some pending =>
    dsimp only
    by_cases ht : o.tokenOk
    · rw [if_pos ht]
      rcases hres : walletLoop (getProtardioBalance o.onchain)
          (candidateWallets o pending) with ⟨total, holding⟩
      cases holding with
      | some hw =>
        dsimp only
        by_cases htot : 0 < total
        · rw [if_pos htot]
          exact ⟨fun h => callbackHolder_grant_false o sid pending st total hw h,
            callbackHolder_grantFailed o sid pending st total hw⟩
        · rw [if_neg htot]
          exact ⟨fun _ => ⟨rfl, by simp⟩, fun hcontra => absurd hcontra (by simp)⟩
      | none =>
        exact ⟨fun _ => ⟨rfl, by simp⟩, fun hcontra => absurd hcontra (by simp)⟩
    · rw [if_neg ht]
      exact ⟨fun _ => ⟨rfl, by simp⟩, fun hcontra => absurd hcontra (by simp)⟩

/-- C2: the primary holding wallet recorded by the wallet loop is the
first wallet, in resolution order, whose balance lookup is positive
(`find?` of the first positive balance); and when every lookup returns
0 (or fails, which reads as 0) there is no primary wallet, the callback
ends in the not-a-holder outcome, and no Binding is written. -/
theorem c2_primary_is_first_positive (bal : String → Nat) (ws : List String)
    (o : Oracles) (sid : String) (st : ServerState) :
    (walletLoop bal ws).2 = ws.find? (fun w => decide (0 < bal w))
    ∧ ((∀ w, getProtardioBalance o.onchain w = 0) →
        (∀ ws2 : List String, (walletLoop (getProtardioBalance o.onchain) ws2).2 = none)
        ∧ (getPending sid st.pendings ≠ none → o.tokenOk = true →
            (callback o sid st).2 = .notHolder
            ∧ (callback o sid st).1.verifications = st.verifications)) := by
  refine ⟨walletLoop_snd bal ws, fun hz => ⟨?_, ?_⟩⟩
  · intro ws2
    rw [walletLoop_snd]
    apply List.find?_eq_none.mpr
    intro w _
    simp [hz w]
  · intro hp ht
    unfold callback
    cases hgp : getPending sid st.pendings with
    | none => exact absurd hgp hp
    | some pending =>
      dsimp only
      rw [if_pos ht]
      rcases hres : walletLoop (getProtardioBalance o.onchain)
          (candidateWallets o pending) with ⟨total, holding⟩
      have hnone : holding = none := by
        have h1 : (walletLoop (getProtardioBalance o.onchain)
            (candidateWallets o pending)).2 = none := by
          rw [walletLoop_snd]
          apply List.find?_eq_none.mpr
          intro w _
          simp [hz w]
        rw [hres] at h1
        exact h1
      rw [hnone]
      exact ⟨rfl, rfl⟩

theorem getPending_deletePending (sid : String) (l : List Pending) :
    getPending sid (deletePending sid l) = none := by
  unfold getPending deletePending
  apply List.find?_eq_none.mpr
  intro p hp
  have h2 := (List.mem_filter.mp hp).2
  simp only [bne_iff_ne, ne_eq] at h2
  simpa using h2

theorem callbackHolder_pendings (o : Oracles) (sid : String) (pending : Pending)
    (st : ServerState) (total : Nat) (hw : String) :
    (callbackHolder o sid pending st total hw).2 = .roleGrantFailed
    ∨ (callbackHolder o sid pending st total hw).1.pendings = deletePending sid st.pendings := by
  unfold callbackHolder
  rcases htb : tryBind ⟨pending.fid, hw, o.user.id, o.user.username, total,
      o.roleGrant o.user.id, o.now⟩ st.verifications with ⟨db2, r⟩
  cases r with
  | fidConflict un => exact Or.inr rfl
  | walletConflict un => exact Or.inr rfl
  | grantFailed => exact Or.inl rfl
  | bound => exact Or.inr rfl

/-- C8 counterexample: a PendingSession CAN be read successfully and
survive the callback.  With a holder wallet but a failing role grant,
the session row is still present afterwards, so the same session id can
drive another verification attempt: the claimed read-then-delete
invariant does not hold on this path. -/
theorem c8_counterexample :
    getPending "s" sampleState.pendings ≠ none
    ∧ (callback grantFailOracles "s" sampleState).2 = Outcome.roleGrantFailed
    ∧ getPending "s" (callback grantFailOracles "s" sampleState).1.pendings ≠ none := by
  refine ⟨by decide, by decide, by decide⟩

/-- C8 (amended): a successfully read session is deleted on every
terminal outcome except a failed role grant (and an exchange failure,
which aborts before the wallet checks): after a callback that ends in
success, not-a-holder, or either conflict page, the session id no
longer resolves; on the role-grant-failure path the session is
retained (C4 requires the state untouched there) until the hourly
expiry sweep removes it. -/
theorem c8_amended_consumed_on_terminal (o : Oracles) (sid : String) (st : ServerState)
    (h : (callback o sid st).2 = .success ∨ (callback o sid st).2 = .notHolder
      ∨ (∃ un, (callback o sid st).2 = .fidConflict un)
      ∨ (∃ un, (callback o sid st).2 = .walletConflict un)) :
    getPending sid (callback o sid st).1.pendings = none := by
  unfold callback at h ⊢
  cases hgp : getPending sid st.pendings with
  | none =>
    rw [hgp] at h
    dsimp only at h
    simp at h
  | some pending =>
    rw [hgp] at h
    dsimp only at h ⊢
    by_cases ht : o.tokenOk
    · rw [if_pos ht] at h ⊢
      rcases hres : walletLoop (getProtardioBalance o.onchain)
          (candidateWallets o pending) with ⟨total, holding⟩
      cases holding with
      | some hw =>
        rw [hres] at h
        dsimp only at h ⊢
        by_cases htot : 0 < total
        · rw [if_pos htot] at h ⊢
          rcases callbackHolder_pendings o sid pending st total hw with hrg | hdel
          · rw [hrg] at h
            simp at h
          · rw [hdel]
            exact getPending_deletePending sid st.pendings
        · rw [if_neg htot] at h ⊢
          exact getPending_deletePending sid st.pendings
      | none =>
        exact getPending_deletePending sid st.pendings
    · rw [if_neg ht] at h
      dsimp only at h
      simp at h

/-- C8 witness: the amended theorem applied to a concrete successful
verification — afterwards the session id no longer resolves. -/
theorem c8_amended_witness :
    getPending "s" (callback grantOkOracles "s" sampleState).1.pendings = none :=
  c8_amended_consumed_on_terminal grantOkOracles "s" sampleState (Or.inl (by decide))

/-- C2 witness: all chain reads failing (read as balance 0) on a live
session drives the concrete callback into the not-a-holder outcome
with the verifications table untouched. -/
theorem c2_witness :
    (callback failingChainOracles "s" sampleState).2 = Outcome.notHolder
    ∧ (callback failingChainOracles "s" sampleState).1.verifications
      = sampleState.verifications :=
  (c2_primary_is_first_positive (fun _ => 0) [] failingChainOracles "s" sampleState).2
    (fun _ => rfl) |>.2 (by decide) rfl

/-- C4 witness: with the role grant failing on a holder wallet, the
concrete callback leaves the whole state unchanged. -/
theorem c4_witness :
    (callback grantFailOracles "s" sampleState).1.verifications = sampleState.verifications
    ∧ (callback grantFailOracles "s" sampleState).1 = sampleState :=
  ⟨((c4_grant_is_precondition grantFailOracles "s" sampleState).1 rfl).1,
    (c4_grant_is_precondition grantFailOracles "s" sampleState).2 (by decide)⟩

/-- C5: processing one stale Binding: when the re-computed aggregate is
0 the role is revoked and the Binding deleted (no record with its
Discord id survives); otherwise no role action is taken, the table
keeps exactly its rows, rows for other Discord ids survive verbatim,
and the row for this Discord id survives with only `nft_balance` and
`last_checked` replaced — `fid`, the primary wallet, the username and
`verified_at` are unchanged. -/
theorem c5_reconcile_stale_binding (fcW : Nat → List String) (onchain : String → Option Nat)
    (now : Nat) (v : Verification) (db : List Verification) :
    (reconcileAggregate fcW onchain v = 0 →
      (reconcileOne fcW onchain now v db).2 = .revoke v.discord_id
      ∧ ∀ r ∈ (reconcileOne fcW onchain now v db).1, r.discord_id ≠ v.discord_id)
    ∧ (reconcileAggregate fcW onchain v ≠ 0 →
      (reconcileOne fcW onchain now v db).2 = .noop
      ∧ (reconcileOne fcW onchain now v db).1.length = db.length
      ∧ ∀ r ∈ db,
          (r.discord_id ≠ v.discord_id → r ∈ (reconcileOne fcW onchain now v db).1)
          ∧ (r.discord_id = v.discord_id →
              (⟨r.fid, r.wallet, r.discord_id, r.discord_username,
                reconcileAggregate fcW onchain v, r.verified_at, now⟩ : Verification)
                ∈ (reconcileOne fcW onchain now v db).1)) := by
  constructor
  · intro h0
    unfold reconcileOne
    rw [if_pos h0]
    refine ⟨rfl, ?_⟩
    intro r hr
    have h2 := (List.mem_filter.mp hr).2
    simpa using h2
  · intro hne
    unfold reconcileOne
    rw [if_neg hne]
    refine ⟨rfl, List.length_map _ _, ?_⟩
    intro r hr
    constructor
    · intro hrid
      unfold updateNftBalance
      apply List.mem_map.mpr
      refine ⟨r, hr, ?_⟩
      rw [if_neg (by simpa using hrid)]
    · intro hrid
      unfold updateNftBalance
      apply List.mem_map.mpr
      refine ⟨r, hr, ?_⟩
      rw [if_pos (by simpa using hrid)]

/-- C5 witness: a stale Binding whose every balance read fails is
revoked and removed from the table. -/
theorem c5_witness :
    (reconcileOne (fun _ => []) (fun _ => none) 5
        ⟨0, "0xAA", "d1", "alice", 2, 0, 0⟩ [⟨0, "0xAA", "d1", "alice", 2, 0, 0⟩]).2
      = RoleAction.revoke "d1"
    ∧ ∀ r ∈ (reconcileOne (fun _ => []) (fun _ => none) 5
        ⟨0, "0xAA", "d1", "alice", 2, 0, 0⟩ [⟨0, "0xAA", "d1", "alice", 2, 0, 0⟩]).1,
        r.discord_id ≠ "d1" :=
  (c5_reconcile_stale_binding (fun _ => []) (fun _ => none) 5
    ⟨0, "0xAA", "d1", "alice", 2, 0, 0⟩ [⟨0, "0xAA", "d1", "alice", 2, 0, 0⟩]).1 (by decide)

/-- C7 witness: the resolver output for a concrete submitted wallet
and social profile contains the discovered wallet, in lowercase form. -/
theorem c7_witness :
    "0xcd" ∈ allWallets "0xAB" (getFarcasterWalletsRes (some sampleFCUser))
    ∧ lowerStr "0xcd" = "0xcd" :=
  ⟨by decide,
    (c7_resolver_output "0xAB" (getFarcasterWalletsRes (some sampleFCUser))
      (some sampleFCUser)).2.2.2.2.2.2 "0xcd" (by decide)⟩

end Protardio
